import Mathlib

/-!
Shallow embedding of `radicale_storage_decsync/__init__.py`, the DecSync
storage bridge for Radicale.  Python dicts are modelled as insertion-ordered
association lists with overwrite-on-insert, Python JSON values as `Val`,
raised exceptions as `Except Err`, and the externally observable effects of a
call (calls into the base storage class and appended sync-log entries) as an
ordered trace of `Action`s.
-/

set_option autoImplicit false

namespace DecsyncStorage

/-- A Python/JSON value as it appears in sync-log entries and props. -/
inductive Val where
  | vnull : Val
  | vbool : Bool → Val
  | vint : Int → Val
  | vstr : String → Val
deriving DecidableEq, Repr

/-- Numeric view used by Python `==`: booleans compare equal to 0/1. -/
def Val.toIntView : Val → Option Int
  | Val.vbool b => some (if b then 1 else 0)
  | Val.vint n => some n
  | _ => none

/-- Python `==` on the values we model (`True == 1` holds in Python). -/
def pyEq (a b : Val) : Bool :=
  match a.toIntView, b.toIntView with
  | some m, some n => m == n
  | _, _ =>
    match a, b with
    | Val.vnull, Val.vnull => true
    | Val.vstr s, Val.vstr t => s == t
    | _, _ => false

/-- Python `==` where the left side is `dict.get(...)` (missing key = `None`). -/
def pyEqOpt (a : Option Val) (b : Val) : Bool :=
  pyEq (a.getD Val.vnull) b

/- Python dicts as insertion-ordered association lists. -/

/-- First-match lookup, i.e. Python `d.get(k)` (keys are unique by construction). -/
def dictGet {α : Type} : List (String × α) → String → Option α
  | [], _ => none
  | p :: rest, k => if p.1 == k then some p.2 else dictGet rest k

/-- Python `k in d`. -/
def dictContains {α : Type} (d : List (String × α)) (k : String) : Bool :=
  d.any (fun p => p.1 == k)

/-- Python `d[k] = v`: overwrite in place if the key exists, else append. -/
def dictInsert {α : Type} (d : List (String × α)) (k : String) (v : α) :
    List (String × α) :=
  if dictContains d k then d.map (fun p => if p.1 == k then (k, v) else p)
  else d ++ [(k, v)]

/-- Removal of a key (the effect of deleting the stored item file). -/
def dictRemove {α : Type} (d : List (String × α)) (k : String) :
    List (String × α) :=
  d.filter (fun p => !(p.1 == k))

/- The data model of the bridge. -/

/-- A stored vobject item: its permanent `uid` and its serialized form
(`item.serialize()`). -/
structure Item where
  uid : String
  serialized : String
deriving DecidableEq, Repr

/-- The state of one `Collection` object together with its
`CollectionHrefMappingsMixin` fields (`_hrefs`, `_uids`, `_suffix`) and the
state the base storage class keeps for it (items by href, metadata props,
whether the collection itself has been deleted). -/
structure CollState where
  items : List (String × Item)
  meta : List (String × Val)
  hrefs : List (String × String)
  uids : List (String × String)
  suffix : String
  collectionDeleted : Bool
deriving DecidableEq, Repr

/-- A collection state before `load_hrefs` has run. -/
def emptyColl : CollState :=
  { items := [], meta := [], hrefs := [], uids := [], suffix := "",
    collectionDeleted := false }

/-- One externally observable effect of a call, in program order: a call into
the base storage class (`super().upload` / `super().delete` /
`super().set_meta_all`), a write of the `.Radicale.hrefs` mapping file, or an
appended sync-log entry (`decsync.set_entry`). -/
inductive Action where
  | superUpload : String → String → Action
  | superDelete : Option String → Action
  | superSetMetaAll : Action
  | hrefsWrite : Action
  | setEntry : List String → Option String → Val → Action
deriving DecidableEq, Repr

/-- A raised Python exception, by raise site. -/
inductive Err where
  | unknownInfoKey : String → Err
  | invalidPath : List String → Err
  | unknownSyncType : String → Err
  | unknownTag : Option Val → Err
  | parseError : Err
  | checkError : Err
  | indexError : Err
  | invalidAttributes : Err
deriving DecidableEq, Repr

/-- Python `s[:-n]` (character-based slicing; `s[:-0]` is `s[:0] = ""`). -/
def pySliceNeg (s : String) (n : Nat) : String :=
  if n == 0 then "" else ⟨s.data.take (s.data.length - n)⟩

/- `CollectionHrefMappingsMixin`. -/

/-- `load_hrefs(sync_type)`: set the suffix, read the mapping file (any read
failure yields the empty mapping, passed here as `none`), and build the
reverse table from the forward table.  The forward table is rebuilt with dict
semantics so later duplicate keys in the file overwrite earlier ones. -/
def load_hrefs (syncType : String) (fileContent : Option (List (String × String)))
    (st : CollState) : CollState :=
  let suffix := if syncType == "contacts" then ".vcf" else ".ics"
  let hrefs := (fileContent.getD []).foldl (fun acc p => dictInsert acc p.1 p.2) []
  let uids := hrefs.foldl (fun acc p => dictInsert acc p.2 p.1) []
  { st with suffix := suffix, hrefs := hrefs, uids := uids }

/-- `get_href(uid)`: the stored override, else `uid + suffix`. -/
def get_href (st : CollState) (uid : String) : String :=
  (dictGet st.hrefs uid).getD (uid ++ st.suffix)

/-- `set_href(uid, href)`: early return when the href already resolves to the
given value; otherwise update both tables and write the mapping file. -/
def set_href (st : CollState) (uid href : String) : CollState × List Action :=
  if href == get_href st uid then (st, [])
  else
    ({ st with hrefs := dictInsert st.hrefs uid href,
               uids := dictInsert st.uids href uid },
     [Action.hrefsWrite])

/-- `get_uid(href)`: the stored reverse entry, else `href[:-len(suffix)]`. -/
def get_uid (st : CollState) (href : String) : String :=
  (dictGet st.uids href).getD (pySliceNeg href st.suffix.length)

/- The overridden mutation operations of `Collection`. -/

/-- `upload(href, vobject_item, update_decsync)`: store via the base class
first; when forwarding is enabled, record the href mapping and append the
`resources` entry. -/
def upload (st : CollState) (href : String) (item : Item) (updateDecsync : Bool) :
    CollState × List Action :=
  let st1 := { st with items := dictInsert st.items href item }
  if updateDecsync then
    let m := set_href st1 item.uid href
    (m.1, Action.superUpload href item.uid :: m.2 ++
      [Action.setEntry ["resources", item.uid] none (Val.vstr item.serialized)])
  else (st1, [Action.superUpload href item.uid])

/-- `delete(href, update_decsync)`: when forwarding is enabled the sync-log
entry is appended first (collection tombstone for `href=None`, item tombstone
keyed by `get_uid(href)` otherwise), then the base class delete runs. -/
def deleteOp (st : CollState) (href : Option String) (updateDecsync : Bool) :
    CollState × List Action :=
  let pre : List Action :=
    if updateDecsync then
      match href with
      | none => [Action.setEntry ["info"] (some "deleted") (Val.vbool true)]
      | some h => [Action.setEntry ["resources", get_uid st h] none Val.vnull]
    else []
  match href with
  | none => ({ st with collectionDeleted := true }, pre ++ [Action.superDelete none])
  | some h =>
    ({ st with items := dictRemove st.items h }, pre ++ [Action.superDelete (some h)])

/-- `set_meta_all(props, update_decsync)`: when forwarding is enabled, append
an `info` entry for each recognized key whose value differs from the current
metadata (missing metadata reads as Python `None`); then the base class
stores the new props. -/
def set_meta_all (st : CollState) (props : List (String × Val)) (updateDecsync : Bool) :
    CollState × List Action :=
  let pre : List Action :=
    if updateDecsync then
      props.filterMap (fun p =>
        if pyEqOpt (dictGet st.meta p.1) p.2 then none
        else if p.1 == "D:displayname" then
          some (Action.setEntry ["info"] (some "name") p.2)
        else if p.1 == "ICAL:calendar-color" then
          some (Action.setEntry ["info"] (some "color") p.2)
        else none)
    else []
  ({ st with meta := props }, pre ++ [Action.superSetMetaAll])

/-- `_set_meta_key(key, value, update_decsync)`: read the current props, set
one key, and pass the result to `set_meta_all`. -/
def set_meta_key (st : CollState) (key : String) (value : Val) (updateDecsync : Bool) :
    CollState × List Action :=
  set_meta_all st (dictInsert st.meta key value) updateDecsync

/- The DecSync listeners registered in `Collection.__init__`. -/

/-- External collaborators used by the resources listener:
`vobject.readOne` (returns `none` when it raises) and
`radicale.storage.check_and_sanitize_item` (returns `false` when it raises). -/
structure Externals where
  readOne : Val → Option Item
  checkItem : Item → String → String → Bool

/-- The `info` channel listener: `name` and `color` update one metadata key,
`deleted` tombstones the collection, anything else raises.  Every mutation is
invoked with `update_decsync=False`. -/
def info_listener (key : String) (value : Val) (st : CollState) :
    Except Err (CollState × List Action) :=
  if key == "name" then Except.ok (set_meta_key st "D:displayname" value false)
  else if key == "deleted" then Except.ok (deleteOp st none false)
  else if key == "color" then
    Except.ok (set_meta_key st "ICAL:calendar-color" value false)
  else Except.error (Err.unknownInfoKey key)

/-- The `resources` channel listener: the path must be a single uid; a null
value deletes the item at the resolved href when present; otherwise the value
is parsed, validated against the collection's expected container tag and the
uid, and uploaded at the resolved href.  Every mutation is invoked with
`update_decsync=False`. -/
def resources_listener (ext : Externals) (syncType : String) (path : List String)
    (value : Val) (st : CollState) : Except Err (CollState × List Action) :=
  match path with
  | [uid] =>
    let href := get_href st uid
    match value with
    | Val.vnull =>
      if (dictGet st.items href).isSome then Except.ok (deleteOp st (some href) false)
      else Except.ok (st, [])
    | v =>
      match ext.readOne v with
      | none => Except.error Err.parseError
      | some item =>
        if syncType == "contacts" then
          if ext.checkItem item uid "VADDRESSBOOK" then
            Except.ok (upload st href item false)
          else Except.error Err.checkError
        else if syncType == "calendars" then
          if ext.checkItem item uid "VCALENDAR" then
            Except.ok (upload st href item false)
          else Except.error Err.checkError
        else Except.error (Err.unknownSyncType syncType)
  | _ => Except.error (Err.invalidPath path)

/- Path handling and the collection lifecycle class methods. -/

/-- Python `s.strip("/")`. -/
def stripSlashes (s : String) : String :=
  ⟨((s.data.dropWhile (fun c => c == '/')).reverse.dropWhile
      (fun c => c == '/')).reverse⟩

/-- `_get_attributes_from_path`: sanitize, strip slashes, split on `/`, and
pop the last element when the first is empty (which happens exactly for the
root path).  `sanitize` abstracts `radicale.storage.sanitize_path`. -/
def getAttributesFromPath (sanitize : String → String) (path : String) :
    List String :=
  let sane := stripSlashes (sanitize path)
  let attributes := sane.splitOn "/"
  if attributes.head? == some "" then attributes.dropLast else attributes

/-- `create_collection(href, items, props)`: with explicit props, the final
path segment is rewritten to `"<sync_type>-<segment>"` with `sync_type`
derived from the container tag; an unrecognized tag raises.  The result is
the path delegated to the base class. -/
def create_collection (sanitize : String → String) (href : String)
    (props : Option (List (String × Val))) : Except Err String :=
  match props with
  | none => Except.ok href
  | some p =>
    let tag := dictGet p "tag"
    let pick : String → Except Err String := fun syncType =>
      let attributes := getAttributesFromPath sanitize href
      match attributes.getLast? with
      | none => Except.error Err.indexError
      | some last =>
        Except.ok (String.intercalate "/"
          (attributes.dropLast ++ [syncType ++ "-" ++ last]))
    if pyEqOpt tag (Val.vstr "VADDRESSBOOK") then pick "contacts"
    else if pyEqOpt tag (Val.vstr "VCALENDAR") then pick "calendars"
    else Except.error (Err.unknownTag tag)

/-- A collection yielded by `discover`: either one the base class already had
materialized, or one newly created from the remote sync-log state. -/
inductive Yielded where
  | loc : String → Yielded
  | created : String → String → String → Yielded
deriving DecidableEq, Repr

/-- The environment one `discover` call runs in: the paths the base class
yields, `Decsync.list_collections`, `Decsync.get_static_info(..., "deleted")`,
and `radicale.storage.sanitize_path`. -/
structure DiscoverEnv where
  localCollections : List String
  listCollections : String → List String
  staticDeleted : String → String → Val
  sanitize : String → String

/-- The inner loops of `discover`: for each sync type and each remotely
advertised collection id, skip ids whose child path is already materialized
and ids whose static `deleted` info equals Python `True`; materialize the
rest. -/
def discoverNew (env : DiscoverEnv) (path : String) (knownPaths : List String) :
    List Yielded :=
  (["contacts", "calendars"].map (fun syncType =>
    (env.listCollections syncType).filterMap (fun c =>
      let childPath := stripSlashes (env.sanitize (path ++ "/" ++ syncType ++ "-" ++ c))
      if knownPaths.contains childPath then none
      else if pyEq (env.staticDeleted syncType c) (Val.vbool true) then none
      else some (Yielded.created syncType c childPath)))).flatten

/-- `discover(path, depth)` as the sequence of collections it yields plus the
exception it ends in, if any: local collections first, then (only for a
recursive depth at a one-segment path) the newly materialized remote ones. -/
def discover (env : DiscoverEnv) (path depth : String) :
    List Yielded × Option Err :=
  let locals := env.localCollections.map Yielded.loc
  if depth == "0" then (locals, none)
  else
    let attributes := getAttributesFromPath env.sanitize path
    if attributes.length == 0 then (locals, none)
    else if attributes.length == 1 then
      (locals ++ discoverNew env path env.localCollections, none)
    else if attributes.length == 2 then (locals, none)
    else (locals, some Err.invalidAttributes)

/- Observables used by the claims. -/

/-- Whether an action is an appended sync-log entry. -/
def isSetEntry : Action → Bool
  | Action.setEntry _ _ _ => true
  | _ => false

/-- Whether an action is a local storage mutation through the base class. -/
def isSuperMutation : Action → Bool
  | Action.superUpload _ _ => true
  | Action.superDelete _ => true
  | Action.superSetMetaAll => true
  | _ => false

/-- Every sync-log append in the trace comes strictly after every local
storage mutation in it. -/
def setEntryAfterMutation (tr : List Action) : Prop :=
  ∀ i j : Fin tr.length, isSetEntry (tr.get i) = true →
    isSuperMutation (tr.get j) = true → (j : Nat) < (i : Nat)

/-- Every sync-log append in the trace comes strictly before every local
storage mutation in it. -/
def setEntryBeforeMutation (tr : List Action) : Prop :=
  ∀ i j : Fin tr.length, isSetEntry (tr.get i) = true →
    isSuperMutation (tr.get j) = true → (i : Nat) < (j : Nat)

/-- The forward and reverse identifier tables are mutually inverse on their
stored entries. -/
def mutualInverse (st : CollState) : Prop :=
  (∀ p ∈ st.hrefs, dictGet st.uids p.2 = some p.1) ∧
  (∀ p ∈ st.uids, dictGet st.hrefs p.2 = some p.1)

/-- States reached from a `load_hrefs` of a missing mapping file by `set_href`
calls whose uid is not yet in the forward table and whose href is not yet in
the reverse table. -/
inductive ReachableFresh : CollState → Prop where
  | load (syncType : String) : ReachableFresh (load_hrefs syncType none emptyColl)
  | step {st : CollState} (uid href : String) (h : ReachableFresh st)
      (hu : dictGet st.hrefs uid = none) (hh : dictGet st.uids href = none) :
      ReachableFresh (set_href st uid href).1

/- Concrete fixtures used to instantiate theorems with hypotheses. -/

/-- A collection state as produced by a fresh `load_hrefs("contacts")`. -/
def loadedContacts : CollState :=
  load_hrefs "contacts" none emptyColl

/-- External collaborators that parse nothing and validate nothing. -/
def extTrivial : Externals :=
  { readOne := fun _ => none, checkItem := fun _ _ _ => false }

/-- A freshly loaded contacts collection holding one item at `"u1.vcf"`. -/
def stWithItem : CollState :=
  { loadedContacts with items := [("u1.vcf", { uid := "u1", serialized := "CARD" })] }

/-- A discovery environment with one remote contacts collection that is
tombstoned. -/
def envTombstoned : DiscoverEnv :=
  { localCollections := [],
    listCollections := fun syncType => if syncType == "contacts" then ["c1"] else [],
    staticDeleted := fun _ _ => Val.vbool true,
    sanitize := fun s => s }

/- Association-list dictionary lemmas. -/

theorem dictContains_eq_false {α : Type} {d : List (String × α)} {k : String} :
    dictContains d k = false ↔ ∀ p ∈ d, p.1 ≠ k := by
  simp [dictContains]

theorem dictGet_append {α : Type} (d d' : List (String × α)) (k : String) :
    dictGet (d ++ d') k =
      match dictGet d k with
      | some v => some v
      | none => dictGet d' k := by
  induction d with
  | nil => simp [dictGet]
  | cons p rest ih =>
    by_cases hp : p.1 == k
    · simp [dictGet, hp]
    · simp [dictGet, hp, ih]

theorem dictGet_replaceMap_self {α : Type} {d : List (String × α)} {k : String}
    (v : α) (h : dictContains d k = true) :
    dictGet (d.map (fun p => if p.1 == k then (k, v) else p)) k = some v := by
  induction d with
  | nil => simp [dictContains] at h
  | cons p rest ih =>
    by_cases hp : p.1 == k
    · simp [dictGet, hp]
    · have hrest : dictContains rest k = true := by
        simp [dictContains] at h ⊢
        rcases h with h | h
        · exact absurd h (by simpa using hp)
        · exact h
      simp only [List.map_cons, if_neg hp]
      simpa [dictGet, hp] using ih hrest

theorem dictGet_replaceMap_ne {α : Type} {d : List (String × α)} {k k' : String}
    (v : α) (hne : k' ≠ k) :
    dictGet (d.map (fun p => if p.1 == k then (k, v) else p)) k' = dictGet d k' := by
  induction d with
  | nil => simp [dictGet]
  | cons p rest ih =>
    by_cases hp : p.1 == k
    · have hp' : p.1 = k := by simpa using hp
      have hk : (k == k') = false := by
        simp only [beq_eq_false_iff_ne]
        exact fun hc => hne hc.symm
      have hpk' : (p.1 == k') = false := by rw [hp']; exact hk
      simp only [List.map_cons, if_pos hp, dictGet, hk, hpk', Bool.false_eq_true,
        if_false]
      exact ih
    · simp only [List.map_cons, if_neg hp, dictGet]
      by_cases hpk : p.1 == k'
      · simp [hpk]
      · simp only [hpk, Bool.false_eq_true, if_false]
        exact ih

theorem dictGet_eq_none_of_forall {α : Type} {d : List (String × α)} {k : String}
    (hall : ∀ p ∈ d, p.1 ≠ k) : dictGet d k = none := by
  induction d with
  | nil => simp [dictGet]
  | cons p rest ih =>
    have hp : (p.1 == k) = false := by
      simpa using hall p (by simp)
    simp only [dictGet, hp, Bool.false_eq_true, if_false]
    exact ih (fun q hq => hall q (by simp [hq]))

theorem dictGet_insert_self {α : Type} (d : List (String × α)) (k : String) (v : α) :
    dictGet (dictInsert d k v) k = some v := by
  unfold dictInsert
  by_cases h : dictContains d k = true
  · rw [if_pos h]
    exact dictGet_replaceMap_self v h
  · have hnone : dictGet d k = none :=
      dictGet_eq_none_of_forall (dictContains_eq_false.mp (by simpa using h))
    simp [h, dictGet_append, hnone, dictGet]

theorem dictGet_insert_ne {α : Type} (d : List (String × α)) (k k' : String) (v : α)
    (hne : k' ≠ k) : dictGet (dictInsert d k v) k' = dictGet d k' := by
  unfold dictInsert
  by_cases h : dictContains d k = true
  · rw [if_pos h]
    exact dictGet_replaceMap_ne v hne
  · have hk : (k == k') = false := by
      simp only [beq_eq_false_iff_ne]
      exact fun hc => hne hc.symm
    simp only [h, Bool.false_eq_true, if_false, dictGet_append]
    cases hd : dictGet d k' with
    | some w => simp
    | none => simp [dictGet, hk]

theorem mem_dictInsert {α : Type} {d : List (String × α)} {k : String} {v : α}
    {p : String × α} (hp : p ∈ dictInsert d k v) :
    p = (k, v) ∨ (p ∈ d ∧ p.1 ≠ k) := by
  unfold dictInsert at hp
  by_cases h : dictContains d k = true
  · simp only [h, if_true, List.mem_map] at hp
    rcases hp with ⟨q, hq, hqeq⟩
    by_cases hqk : q.1 == k
    · left
      simp only [if_pos hqk] at hqeq
      exact hqeq.symm
    · right
      simp only [if_neg hqk] at hqeq
      subst hqeq
      exact ⟨hq, by simpa using hqk⟩
  · simp only [h, Bool.false_eq_true, if_false, List.mem_append,
      List.mem_singleton] at hp
    rcases hp with hp | hp
    · right
      refine ⟨hp, ?_⟩
      exact dictContains_eq_false.mp (by simpa using h) p hp
    · left
      exact hp

theorem dictGet_eq_none_forall {α : Type} {d : List (String × α)} {k : String}
    (h : dictGet d k = none) : ∀ p ∈ d, p.1 ≠ k := by
  induction d with
  | nil => simp
  | cons q rest ih =>
    intro p hp
    by_cases hq : q.1 == k
    · simp [dictGet, hq] at h
    · simp only [dictGet, hq, Bool.false_eq_true, if_false] at h
      rcases List.mem_cons.mp hp with rfl | hp'
      · simpa using hq
      · exact ih h p hp'

/- Claim theorems. -/

/-- C4: calling `set_href(uid, href)` when `href` already equals
`get_href(uid)` (including the default resolution `uid + suffix` when no
override is stored) is a no-op: the in-memory tables are unchanged and no
write of the mapping file is performed. -/
theorem set_href_noop (st : CollState) (uid href : String)
    (h : href = get_href st uid) :
    (set_href st uid href).1 = st ∧ Action.hrefsWrite ∉ (set_href st uid href).2 := by
  unfold set_href
  simp [h]

/-- C4 witness: on a freshly loaded contacts mapping, setting the default
resolution `"u" + ".vcf"` for `"u"` changes nothing and writes nothing. -/
theorem set_href_noop_witness :
    (set_href loadedContacts "u" "u.vcf").1 = loadedContacts ∧
    Action.hrefsWrite ∉ (set_href loadedContacts "u" "u.vcf").2 :=
  set_href_noop loadedContacts "u" "u.vcf" (by decide)

/-- C8: applying a resources-channel tombstone (null value) when no local
entry exists at the resolved href succeeds without error and leaves the state
unchanged; no mutation at all is performed. -/
theorem tombstone_noop (ext : Externals) (syncType uid : String)
    (st : CollState) (h : dictGet st.items (get_href st uid) = none) :
    resources_listener ext syncType [uid] Val.vnull st = Except.ok (st, []) := by
  simp [resources_listener, h]

/-- C8 witness: a tombstone for `"u1"` on a freshly loaded empty collection
returns the state unchanged with no effects. -/
theorem tombstone_noop_witness :
    resources_listener extTrivial "contacts" ["u1"] Val.vnull loadedContacts =
      Except.ok (loadedContacts, []) :=
  tombstone_noop extTrivial "contacts" "u1" loadedContacts (by decide)

/-- C9: the info listener tombstones the collection whenever the entry key is
`"deleted"`, for every value of the entry including `False`: the deletion
branch inspects only the key, never the value. -/
theorem deleted_key_ignores_value (value : Val) (st : CollState) :
    info_listener "deleted" value st =
      Except.ok ({ st with collectionDeleted := true }, [Action.superDelete none]) := by
  rfl

/-- C10: for every href with no stored reverse mapping, `get_uid` drops the
last `len(suffix)` (= 4) characters of the href unconditionally, even when
the href does not end with the suffix; for an href shorter than 4 characters
the result is the empty string. -/
theorem get_uid_unconditional_strip (st : CollState) (href : String)
    (hrev : dictGet st.uids href = none) (hlen : st.suffix.length = 4) :
    get_uid st href = ⟨href.data.take (href.data.length - 4)⟩ ∧
    (href.data.length < 4 → get_uid st href = "") := by
  have h1 : get_uid st href = pySliceNeg href st.suffix.length := by
    simp [get_uid, hrev]
  rw [hlen] at h1
  constructor
  · rw [h1]
    simp [pySliceNeg]
  · intro hshort
    rw [h1]
    simp only [pySliceNeg, show ((4 : Nat) == 0) = false from rfl,
      Bool.false_eq_true, if_false]
    have hz : href.data.length - 4 = 0 := by omega
    rw [hz, List.take_zero]

/-- C10 witness: on a freshly loaded contacts mapping, the unmapped two-char
href `"ab"` resolves to the empty uid. -/
theorem get_uid_strip_witness : get_uid loadedContacts "ab" = "" :=
  (get_uid_unconditional_strip loadedContacts "ab" (by decide) (by decide)).2
    (by decide)

/-- C1: every incoming resources-channel entry applied through the resources
listener — tombstone branch or upsert branch — yields a trace with no
outgoing sync-log append and no href-mapping forwarding: the local mutations
run with `update_decsync=False`. -/
theorem remote_application_no_echo (ext : Externals) (syncType : String)
    (path : List String) (value : Val) (st st' : CollState) (tr : List Action)
    (h : resources_listener ext syncType path value st = Except.ok (st', tr)) :
    ∀ a ∈ tr, isSetEntry a = false ∧ a ≠ Action.hrefsWrite := by
  rcases path with _ | ⟨uid, _ | ⟨b, rest⟩⟩
  · exact absurd h (by simp [resources_listener])
  · simp only [resources_listener] at h
    repeat' split at h
    all_goals
      first
        | exact Except.noConfusion h
        | (simp only [upload, deleteOp, Bool.false_eq_true, if_false,
             List.nil_append, Except.ok.injEq, Prod.mk.injEq] at h
           rcases h with ⟨-, rfl⟩
           intro a ha
           fin_cases ha <;> simp [isSetEntry])
  · exact absurd h (by simp [resources_listener])

/-- C1 witness: applying a concrete tombstone to a collection holding the
item produces only a base-class delete, which is neither a sync-log append
nor a mapping write. -/
theorem remote_application_no_echo_witness :
    isSetEntry (Action.superDelete (some "u1.vcf")) = false ∧
    Action.superDelete (some "u1.vcf") ≠ Action.hrefsWrite :=
  remote_application_no_echo extTrivial "contacts" ["u1"] Val.vnull stWithItem
    { stWithItem with items := [] } [Action.superDelete (some "u1.vcf")]
    rfl (Action.superDelete (some "u1.vcf")) (by decide)

/-- Stripping an appended non-empty suffix with Python `s[:-n]` slicing
recovers the original string. -/
theorem pySliceNeg_append (a b : String) (hb : b.data.length ≠ 0) :
    pySliceNeg (a ++ b) b.length = a := by
  obtain ⟨da⟩ := a
  obtain ⟨db⟩ := b
  have hc : (String.length { data := db } == 0) = false := by
    simpa [String.length] using hb
  simp only [pySliceNeg, hc, Bool.false_eq_true, if_false]
  have happ : ((⟨da⟩ : String) ++ ⟨db⟩).data = da ++ db := String.data_append _ _
  simp only [happ, List.length_append, String.length]
  rw [Nat.add_sub_cancel, List.take_left]

/-- C5 counterexample: the claimed round-trip fails right after a `set_href`
call.  Starting from a fresh contacts mapping, `set_href("u2", "u1.vcf")`
claims the reverse entry for `"u1.vcf"`; the subsequent
`set_href("u1", "u1.vcf")` is a no-op (its href equals the default
resolution), and immediately afterwards `get_uid(get_href("u1"))` is `"u2"`,
not `"u1"`. -/
theorem roundtrip_counterexample :
    get_uid (set_href (set_href loadedContacts "u2" "u1.vcf").1 "u1" "u1.vcf").1
        (get_href (set_href (set_href loadedContacts "u2" "u1.vcf").1 "u1"
          "u1.vcf").1 "u1") ≠ "u1" := by
  decide

/-- C5 (amended): immediately after a `set_href(uid, href)` call that
actually updates the mapping (`href` differs from the current resolution),
`get_uid(get_href(uid)) = uid`; and in a freshly loaded mapping (missing
file), `get_href(uid) = uid + suffix` and `get_uid(uid + suffix) = uid`. -/
theorem roundtrip_amended :
    (∀ st uid href, href ≠ get_href st uid →
       get_uid (set_href st uid href).1 (get_href (set_href st uid href).1 uid) =
         uid) ∧
    (∀ syncType uid,
       get_href (load_hrefs syncType none emptyColl) uid =
         uid ++ (load_hrefs syncType none emptyColl).suffix ∧
       get_uid (load_hrefs syncType none emptyColl)
           (uid ++ (load_hrefs syncType none emptyColl).suffix) = uid) := by
  constructor
  · intro st uid href hne
    unfold set_href
    rw [if_neg (by simpa using hne)]
    have hget : get_href
        { st with hrefs := dictInsert st.hrefs uid href,
                  uids := dictInsert st.uids href uid } uid = href := by
      simp [get_href, dictGet_insert_self]
    rw [hget]
    simp [get_uid, dictGet_insert_self]
  · intro syncType uid
    by_cases hc : (syncType == "contacts") = true
    · constructor
      · simp [load_hrefs, get_href, dictGet, hc]
      · simp only [load_hrefs, hc, if_true, Option.getD_none, List.foldl_nil,
          get_uid, dictGet, Option.getD]
        exact pySliceNeg_append uid ".vcf" (by decide)
    · constructor
      · simp [load_hrefs, get_href, dictGet, hc]
      · simp only [load_hrefs, hc, Bool.false_eq_true, if_false,
          Option.getD_none, List.foldl_nil, get_uid, dictGet, Option.getD]
        exact pySliceNeg_append uid ".ics" (by decide)

/-- C5 witness: after actually overriding `"u"` to `"custom.vcf"` on a fresh
contacts mapping, the round-trip holds. -/
theorem roundtrip_amended_witness :
    get_uid (set_href loadedContacts "u" "custom.vcf").1
        (get_href (set_href loadedContacts "u" "custom.vcf").1 "u") = "u" :=
  roundtrip_amended.1 loadedContacts "u" "custom.vcf" (by decide)

/-- C3 counterexample: the uid/href table is not injective in both directions
for every state reachable by `load_hrefs` followed by `set_href` calls.
After `set_href("u1", "h")` and `set_href("u2", "h")` from a fresh load, both
uids map to `"h"` forward while the reverse table maps `"h"` to `"u2"` only,
so the stored tables are not mutually inverse. -/
theorem injectivity_counterexample :
    ¬ mutualInverse (set_href (set_href loadedContacts "u1" "h").1 "u2" "h").1 := by
  simp only [mutualInverse]
  decide

/-- Updating both tables with a uid that is fresh in the forward table and an
href that is fresh in the reverse table preserves mutual inverseness. -/
theorem mutualInverse_set_href {st : CollState} (uid href : String)
    (hinv : mutualInverse st) (hu : dictGet st.hrefs uid = none)
    (hh : dictGet st.uids href = none) :
    mutualInverse (set_href st uid href).1 := by
  unfold set_href
  by_cases hc : (href == get_href st uid) = true
  · rw [if_pos hc]
    exact hinv
  · rw [if_neg hc]
    constructor
    · intro p hp
      rcases mem_dictInsert hp with heq | ⟨hpd, hpne⟩
      · subst heq
        exact dictGet_insert_self st.uids href uid
      · have hrev := hinv.1 p hpd
        have hne2 : p.2 ≠ href := by
          intro hcontra
          rw [hcontra, hh] at hrev
          exact Option.noConfusion hrev
        rw [dictGet_insert_ne st.uids href p.2 uid hne2]
        exact hrev
    · intro p hp
      rcases mem_dictInsert hp with heq | ⟨hpd, hpne⟩
      · subst heq
        exact dictGet_insert_self st.hrefs uid href
      · have hfor := hinv.2 p hpd
        have hne2 : p.2 ≠ uid := by
          intro hcontra
          rw [hcontra, hu] at hfor
          exact Option.noConfusion hfor
        rw [dictGet_insert_ne st.hrefs uid p.2 href hne2]
        exact hfor

/-- C3 (amended): the forward and reverse tables are mutually inverse on
their stored entries in every state reached from a `load_hrefs` of a missing
mapping file by `set_href` calls whose uid is not yet a forward key and whose
href is not yet a reverse key. -/
theorem reachable_fresh_mutual_inverse (st : CollState) (h : ReachableFresh st) :
    mutualInverse st := by
  induction h with
  | load syncType =>
    constructor
    · intro p hp
      simp [load_hrefs] at hp
    · intro p hp
      simp [load_hrefs] at hp
  | step uid href hst hu hh ih =>
    exact mutualInverse_set_href uid href ih hu hh

/-- C3 witness: one fresh override on a freshly loaded mapping yields
mutually inverse tables. -/
theorem reachable_fresh_witness :
    mutualInverse (set_href loadedContacts "u1" "h1").1 :=
  reachable_fresh_mutual_inverse _
    (ReachableFresh.step "u1" "h1" (ReachableFresh.load "contacts") (by decide)
      (by decide))

/-- Python `==` against a string literal holds exactly for that string. -/
theorem pyEq_vstr_iff (v : Val) (s : String) :
    pyEq v (Val.vstr s) = true ↔ v = Val.vstr s := by
  cases v <;> simp [pyEq, Val.toIntView]

/-- Contrapositive form of `pyEq_vstr_iff`. -/
theorem pyEq_vstr_eq_false {v : Val} {s : String} (h : v ≠ Val.vstr s) :
    pyEq v (Val.vstr s) = false := by
  rcases Bool.eq_false_or_eq_true (pyEq v (Val.vstr s)) with hb | hb
  · exact absurd ((pyEq_vstr_iff v s).mp hb) h
  · exact hb

/-- C7: protocol violations raise and propagate: the info listener raises on
any key other than `name`, `deleted`, `color`; the resources listener raises
when the entry path does not have exactly one segment; and
`create_collection` with explicit props raises when the container-type tag is
neither the address-book tag nor the calendar tag. -/
theorem protocol_violations_raise :
    (∀ key value st, key ≠ "name" → key ≠ "deleted" → key ≠ "color" →
       info_listener key value st = Except.error (Err.unknownInfoKey key)) ∧
    (∀ ext syncType path value st, path.length ≠ 1 →
       resources_listener ext syncType path value st =
         Except.error (Err.invalidPath path)) ∧
    (∀ sanitize href props,
       dictGet props "tag" ≠ some (Val.vstr "VADDRESSBOOK") →
       dictGet props "tag" ≠ some (Val.vstr "VCALENDAR") →
       create_collection sanitize href (some props) =
         Except.error (Err.unknownTag (dictGet props "tag"))) := by
  refine ⟨?_, ?_, ?_⟩
  · intro key value st h1 h2 h3
    have e1 : (key == "name") = false := by simpa using h1
    have e2 : (key == "deleted") = false := by simpa using h2
    have e3 : (key == "color") = false := by simpa using h3
    simp [info_listener, e1, e2, e3]
  · intro ext syncType path value st hlen
    rcases path with _ | ⟨uid, _ | ⟨b, rest⟩⟩
    · rfl
    · simp at hlen
    · rfl
  · intro sanitize href props h1 h2
    have hv1 : pyEqOpt (dictGet props "tag") (Val.vstr "VADDRESSBOOK") = false := by
      cases hg : dictGet props "tag" with
      | none => rfl
      | some t =>
        rw [hg] at h1
        simp only [pyEqOpt, Option.getD_some]
        exact pyEq_vstr_eq_false (fun hc => h1 (by rw [hc]))
    have hv2 : pyEqOpt (dictGet props "tag") (Val.vstr "VCALENDAR") = false := by
      cases hg : dictGet props "tag" with
      | none => rfl
      | some t =>
        rw [hg] at h2
        simp only [pyEqOpt, Option.getD_some]
        exact pyEq_vstr_eq_false (fun hc => h2 (by rw [hc]))
    simp [create_collection, hv1, hv2]

/-- C7 witness: an unknown info key, a zero-segment resources path, and an
unknown container tag each produce the corresponding error. -/
theorem protocol_violations_raise_witness :
    info_listener "bogus" Val.vnull loadedContacts =
      Except.error (Err.unknownInfoKey "bogus") ∧
    resources_listener extTrivial "contacts" [] Val.vnull loadedContacts =
      Except.error (Err.invalidPath []) ∧
    create_collection (fun s => s) "/user/coll" (some [("tag", Val.vstr "BAD")]) =
      Except.error (Err.unknownTag (some (Val.vstr "BAD"))) :=
  ⟨protocol_violations_raise.1 "bogus" Val.vnull loadedContacts (by decide)
      (by decide) (by decide),
   protocol_violations_raise.2.1 extTrivial "contacts" [] Val.vnull loadedContacts
     (by decide),
   protocol_violations_raise.2.2 (fun s => s) "/user/coll"
     [("tag", Val.vstr "BAD")] (by decide) (by decide)⟩

/-- C6: a remotely advertised collection whose info-channel static `deleted`
key equals `true` is never materialized or yielded as a new local collection
by `discover`, for any root path and any depth. -/
theorem tombstoned_never_materialized (env : DiscoverEnv) (path depth : String)
    (syncType c childPath : String)
    (hdel : env.staticDeleted syncType c = Val.vbool true) :
    Yielded.created syncType c childPath ∉ (discover env path depth).1 := by
  have hloc : Yielded.created syncType c childPath ∉
      env.localCollections.map Yielded.loc := by
    intro hmem
    rcases List.mem_map.mp hmem with ⟨x, -, hx⟩
    exact Yielded.noConfusion hx
  have hnew : Yielded.created syncType c childPath ∉
      discoverNew env path env.localCollections := by
    intro hmem
    unfold discoverNew at hmem
    rcases List.mem_flatten.mp hmem with ⟨l, hl, hml⟩
    rcases List.mem_map.mp hl with ⟨syncType', -, rfl⟩
    rcases List.mem_filterMap.mp hml with ⟨c', -, hc'⟩
    by_cases h1 : (env.localCollections.contains
        (stripSlashes (env.sanitize (path ++ "/" ++ syncType' ++ "-" ++ c')))) = true
    · rw [if_pos h1] at hc'
      exact Option.noConfusion hc'
    · rw [if_neg h1] at hc'
      by_cases h2 : (pyEq (env.staticDeleted syncType' c') (Val.vbool true)) = true
      · rw [if_pos h2] at hc'
        exact Option.noConfusion hc'
      · rw [if_neg h2] at hc'
        injection hc' with hc''
        injection hc'' with e1 e2 e3
        subst e1
        subst e2
        apply h2
        rw [hdel]
        rfl
  intro hmem
  unfold discover at hmem
  dsimp only at hmem
  repeat' split at hmem
  all_goals
    first
      | exact hloc hmem
      | (rcases List.mem_append.mp hmem with hmem | hmem
         · exact hloc hmem
         · exact hnew hmem)

/-- C6 witness: a tombstoned remote contacts collection is absent from a
recursive discovery at the root of a user. -/
theorem tombstoned_never_materialized_witness :
    Yielded.created "contacts" "c1" "user/contacts-c1" ∉
      (discover envTombstoned "/user" "1").1 :=
  tombstoned_never_materialized envTombstoned "/user" "1" "contacts" "c1"
    "user/contacts-c1" rfl

/-- An action that is a sync-log append is not a base-class mutation. -/
theorem not_superMutation_of_setEntry {a : Action} (h : isSetEntry a = true) :
    isSuperMutation a = false := by
  cases a <;> simp_all [isSetEntry, isSuperMutation]

/-- In a trace of sync-log appends followed by one non-append action, every
append precedes every base-class mutation. -/
theorem setEntryBefore_append_single (pre : List Action) (a : Action)
    (hpre : ∀ b ∈ pre, isSetEntry b = true) (ha : isSetEntry a = false) :
    setEntryBeforeMutation (pre ++ [a]) := by
  intro i j hSE hSM
  have hlen : (pre ++ [a]).length = pre.length + 1 := by simp
  have hjb : (j : Nat) < pre.length + 1 := by rw [← hlen]; exact j.isLt
  have hib : (i : Nat) < pre.length + 1 := by rw [← hlen]; exact i.isLt
  have hj : (j : Nat) = pre.length := by
    by_contra hcon
    have hjlt : (j : Nat) < pre.length := by omega
    have hget : (pre ++ [a]).get j = pre[(j : Nat)] := by
      rw [List.get_eq_getElem]
      exact List.getElem_append_left hjlt
    have hse := hpre _ (List.getElem_mem hjlt)
    have hns := not_superMutation_of_setEntry hse
    rw [hget, hns] at hSM
    exact Bool.noConfusion hSM
  have hi : (i : Nat) < pre.length := by
    by_contra hcon
    have hieq : (i : Nat) = pre.length := by omega
    have hget : (pre ++ [a]).get i = a := by
      rw [List.get_eq_getElem]
      exact List.getElem_concat_length pre a (i : Nat) hieq _
    rw [hget, ha] at hSE
    exact Bool.noConfusion hSE
  omega

/-- C2 counterexample: for `delete` and `set_meta_all` invoked without the
origin-remote marker, the sync-log append does not come after the local
mutation: on concrete inputs the appended `set_entry` precedes the base-class
call in the effect trace. -/
theorem forwarding_order_counterexample :
    ¬ setEntryAfterMutation (deleteOp loadedContacts (some "x.vcf") true).2 ∧
    ¬ setEntryAfterMutation
        (set_meta_all loadedContacts [("D:displayname", Val.vstr "n")] true).2 := by
  constructor <;> (simp only [setEntryAfterMutation]; decide)

/-- C2 (amended): for `upload` the sync-log append occurs strictly after the
base-class mutation; for `delete` and `set_meta_all` the sync-log appends
occur strictly before the base-class mutation. -/
theorem forwarding_order_amended :
    (∀ st href item, setEntryAfterMutation (upload st href item true).2) ∧
    (∀ st href, setEntryBeforeMutation (deleteOp st href true).2) ∧
    (∀ st props, setEntryBeforeMutation (set_meta_all st props true).2) := by
  refine ⟨?_, ?_, ?_⟩
  · intro st href item
    have htr : (upload st href item true).2 =
        Action.superUpload href item.uid ::
          (set_href { st with items := dictInsert st.items href item }
            item.uid href).2 ++
          [Action.setEntry ["resources", item.uid] none
            (Val.vstr item.serialized)] := rfl
    have hdi : (set_href { st with items := dictInsert st.items href item }
          item.uid href).2 = [] ∨
        (set_href { st with items := dictInsert st.items href item }
          item.uid href).2 = [Action.hrefsWrite] := by
      unfold set_href
      by_cases hc : (href == get_href
          { st with items := dictInsert st.items href item } item.uid) = true
      · left
        rw [if_pos hc]
      · right
        rw [if_neg hc]
    rcases hdi with hsh | hsh <;> rw [htr, hsh] <;>
      (intro i j hSE hSM
       fin_cases i <;> fin_cases j <;>
         simp_all [isSetEntry, isSuperMutation])
  · intro st href
    cases href with
    | none =>
      have htr : (deleteOp st none true).2 =
          [Action.setEntry ["info"] (some "deleted") (Val.vbool true),
           Action.superDelete none] := rfl
      rw [htr]
      exact setEntryBefore_append_single
        [Action.setEntry ["info"] (some "deleted") (Val.vbool true)]
        (Action.superDelete none)
        (by intro b hb; fin_cases hb; rfl) rfl
    | some hr =>
      have htr : (deleteOp st (some hr) true).2 =
          [Action.setEntry ["resources", get_uid st hr] none Val.vnull,
           Action.superDelete (some hr)] := rfl
      rw [htr]
      exact setEntryBefore_append_single
        [Action.setEntry ["resources", get_uid st hr] none Val.vnull]
        (Action.superDelete (some hr))
        (by intro b hb; fin_cases hb; rfl) rfl
  · intro st props
    have htr : (set_meta_all st props true).2 =
        (props.filterMap (fun p =>
          if pyEqOpt (dictGet st.meta p.1) p.2 then none
          else if p.1 == "D:displayname" then
            some (Action.setEntry ["info"] (some "name") p.2)
          else if p.1 == "ICAL:calendar-color" then
            some (Action.setEntry ["info"] (some "color") p.2)
          else none)) ++ [Action.superSetMetaAll] := rfl
    rw [htr]
    apply setEntryBefore_append_single
    · intro b hb
      rcases List.mem_filterMap.mp hb with ⟨p, -, hp⟩
      repeat' split at hp
      all_goals
        first
          | exact Option.noConfusion hp
          | (injection hp with hp'
             rw [← hp']
             rfl)
    · rfl

end DecsyncStorage
